import Mathlib

/-!
# Verification of the Unveil frontend history mechanism

Shallow embedding of the bounded, bidirectional artwork-history core of the
Unveil frontend (the `useArtworkHistory` hook and the navigation handlers of
`ArtworkDisplayPage`), together with proofs and refutations of the spec's
claims about it.

Modelling conventions:
* `viewedAt` is an ISO timestamp string in the source, produced by
  `new Date().toISOString()` and compared via `new Date(s).getTime()`.
  We model it as `Option Nat` (epoch milliseconds); the current wall-clock
  time is passed explicitly as a `now : Nat` argument to the operations that
  read the clock.
* React `useState` state is modelled as explicit record state
  (`HistoryState`, `PageState`) threaded through pure transition functions.
* JavaScript `Array.prototype.sort` with comparator `timeA - timeB` is a
  stable ascending sort by time; we model it with a stable insertion sort.
* `localStorage` / backend contents are external inputs; the load and sync
  operations take the parsed list as a parameter.
-/

/-- The `Artwork` record (src/types/artwork.ts), restricted to the fields the
history core reads or writes.  The remaining optional metadata fields
(`year`, `description`, `objectDate`, `medium`, `dimensions`, `creditLine`)
are carried around untouched by every history operation and are omitted. -/
structure Artwork where
  id : String
  artworkId : Option String := none
  title : String := ""
  artist : String := ""
  imageUrl : String := ""
  museumSource : String
  isFavorited : Option Bool := none
  viewedAt : Option Nat := none
  deriving DecidableEq, Repr

/-- The `MAX_HISTORY_SIZE` constant in useArtworkHistory. -/
def MAX_HISTORY_SIZE : Nat := 100

/-- The state owned by the `useArtworkHistory` hook: the `history` array and
the `currentIndex` pointer (an integer, `-1` on an empty history). -/
structure HistoryState where
  history : List Artwork
  currentIndex : Int
  deriving DecidableEq, Repr

/-- Initial hook state: `useState<Artwork[]>([])`, `useState<number>(-1)`. -/
def initState : HistoryState := { history := [], currentIndex := -1 }

/-- Dedup key: `` `${artwork.museumSource}-${artwork.id}` `` in
`mergeHistories`. -/
def keyOf (a : Artwork) : String :=
  a.museumSource ++ "-" ++ a.id

/-- The time used by the merge comparator:
`a.viewedAt ? new Date(a.viewedAt).getTime() : 0`. -/
def timeOf (a : Artwork) : Nat :=
  a.viewedAt.getD 0

/-- First pass of `mergeHistories`: walk `[...local, ...server]` keeping each
artwork whose key has not been `seen` yet (first occurrence per key wins). -/
def dedupByKey (seen : List String) : List Artwork → List Artwork
  | [] => []
  | a :: as =>
    if keyOf a ∈ seen then dedupByKey seen as
    else a :: dedupByKey (keyOf a :: seen) as

/-- Insert `a` into a time-sorted list, after every element whose time is
strictly smaller and before the first element whose time is `≥` — together
with `sortByTime` this is a stable ascending sort, matching the semantics of
`merged.sort((a, b) => timeA - timeB)` (ES2019 `sort` is stable). -/
def insertByTime (a : Artwork) : List Artwork → List Artwork
  | [] => [a]
  | b :: bs => if timeOf b < timeOf a then b :: insertByTime a bs else a :: b :: bs

/-- Stable ascending sort by `timeOf` (model of the JS stable `sort`). -/
def sortByTime : List Artwork → List Artwork
  | [] => []
  | a :: as => insertByTime a (sortByTime as)

/-- Model of `mergeHistories(local, server)`: deduplicate `[...local, ...server]` by
key (first occurrence wins), then sort ascending by `viewedAt` time
(missing timestamp counts as `0`). -/
def mergeHistories (loc server : List Artwork) : List Artwork :=
  sortByTime (dedupByKey [] (loc ++ server))

/-- JavaScript `arr.slice(0, e)` for an integer `e` (a negative `e` counts
from the end; the history code only reaches `e ≥ 0`). -/
def jsSliceTo (l : List Artwork) (e : Int) : List Artwork :=
  l.take (if e < 0 then ((l.length : Int) + e).toNat else e.toNat)

/-- Model of `addToHistory(artwork)` at wall-clock time `now`.  Truncates the redo
branch when `currentIndex < history.length - 1`, stamps the artwork with
`viewedAt = now` (unconditionally: `{ ...artwork, viewedAt: new Date()... }`),
pushes it, `shift`s once when the length exceeds `MAX_HISTORY_SIZE`, and sets
`currentIndex` to `Math.min(currentIndex + 1, MAX_HISTORY_SIZE - 1)`. -/
def addToHistory (a : Artwork) (now : Nat) (s : HistoryState) : HistoryState :=
  let newHistory :=
    if s.currentIndex < (s.history.length : Int) - 1 then
      jsSliceTo s.history (s.currentIndex + 1)
    else s.history
  let stamped : Artwork := { a with viewedAt := some now }
  let pushed := newHistory ++ [stamped]
  let limited := if pushed.length > MAX_HISTORY_SIZE then pushed.tail else pushed
  { history := limited,
    currentIndex := min (s.currentIndex + 1) ((MAX_HISTORY_SIZE : Int) - 1) }

/-- JavaScript `history[i]` for an integer index (out of range gives
`undefined`, modelled as `none`). -/
def jsIndex (l : List Artwork) (i : Int) : Option Artwork :=
  if 0 ≤ i then l.get? i.toNat else none

/-- Model of `goToPrevious()`: state change and returned value. -/
def goToPrevious (s : HistoryState) : HistoryState × Option Artwork :=
  if s.currentIndex > 0 then
    ({ s with currentIndex := s.currentIndex - 1 },
      jsIndex s.history (s.currentIndex - 1))
  else (s, none)

/-- Model of `goToNext()`: state change and returned value. -/
def goToNext (s : HistoryState) : HistoryState × Option Artwork :=
  if s.currentIndex < (s.history.length : Int) - 1 then
    ({ s with currentIndex := s.currentIndex + 1 },
      jsIndex s.history (s.currentIndex + 1))
  else (s, none)

/-- Model of `getCurrentArtwork()`: the record at `currentIndex` when
`0 <= currentIndex < history.length`, else `null`. -/
def getCurrentArtwork (s : HistoryState) : Option Artwork :=
  if 0 ≤ s.currentIndex ∧ s.currentIndex < (s.history.length : Int) then
    jsIndex s.history s.currentIndex
  else none

/-- The `canGoBack: currentIndex > 0` field of the hook return object. -/
def canGoBack (s : HistoryState) : Bool :=
  s.currentIndex > 0

/-- The `canGoForward: currentIndex < history.length - 1` field of the hook return object. -/
def canGoForward (s : HistoryState) : Bool :=
  s.currentIndex < (s.history.length : Int) - 1

/-- The `isAtEnd: currentIndex >= history.length - 1` field of the hook return object. -/
def isAtEnd (s : HistoryState) : Bool :=
  s.currentIndex ≥ (s.history.length : Int) - 1

/-- The `loadHistory` effect with a stored value present: `setHistory(parsed)`
and `setCurrentIndex(parsed.length - 1)` (no clamping, no dedup).  When
nothing is stored the state is unchanged. -/
def loadFromStorage (parsed : List Artwork) (_s : HistoryState) : HistoryState :=
  { history := parsed, currentIndex := (parsed.length : Int) - 1 }

/-- The `syncFromBackend` effect: guarded by `history.length === 0` (outer
effect guard) and `serverHistory.length > 0`; merges and points at the new
end.  Under the outer guard the history being merged is the empty initial
one, so merging the current history is equivalent to the effect's captured
closure state. -/
def syncFromBackend (server : List Artwork) (s : HistoryState) : HistoryState :=
  if s.history = [] ∧ server ≠ [] then
    let merged := mergeHistories s.history server
    { history := merged, currentIndex := (merged.length : Int) - 1 }
  else s

/-- The operations that mutate the hook state, for stating whole-lifecycle
invariants. -/
inductive Op where
  | load (parsed : List Artwork)
  | sync (server : List Artwork)
  | add (a : Artwork) (now : Nat)
  | prev
  | next
  deriving Repr

/-- Apply one operation to the hook state. -/
def applyOp (op : Op) (s : HistoryState) : HistoryState :=
  match op with
  | .load parsed => loadFromStorage parsed s
  | .sync server => syncFromBackend server s
  | .add a now => addToHistory a now s
  | .prev => (goToPrevious s).1
  | .next => (goToNext s).1

/-- Run a sequence of operations from a starting state. -/
def runOps (ops : List Op) (s : HistoryState) : HistoryState :=
  ops.foldl (fun s op => applyOp op s) s

/-- The pointer invariant of the spec:
`-1 <= pointer <= length-1` and `pointer = -1` iff the history is empty. -/
def PtrInv (s : HistoryState) : Prop :=
  -1 ≤ s.currentIndex ∧ s.currentIndex ≤ (s.history.length : Int) - 1 ∧
    (s.currentIndex = -1 ↔ s.history.length = 0)

instance (s : HistoryState) : Decidable (PtrInv s) := by
  unfold PtrInv; infer_instance

/-- The full invariant claimed by the spec: pointer invariant plus the
capacity bound `length <= MAX_HISTORY_SIZE`. -/
def HistInv (s : HistoryState) : Prop :=
  PtrInv s ∧ s.history.length ≤ MAX_HISTORY_SIZE

instance (s : HistoryState) : Decidable (HistInv s) := by
  unfold HistInv; infer_instance

/-- Values of the `lastNavDirection.current` ref in ArtworkDisplayPage. -/
inductive NavDirection where
  | prev
  | next
  deriving DecidableEq, Repr

/-- The ArtworkDisplayPage state: its own `useState` pieces, the
`lastNavDirection` ref, the embedded `useArtworkHistory` state, and a count
of `getRandomArtwork` fetches that have been issued but have not yet
resolved or failed (`inFlightFetches`), used to state the in-flight-guard
claim. -/
structure PageState where
  currentArtwork : Option Artwork := none
  isLoading : Bool := true
  error : Option String := none
  isBrowsingHistory : Bool := false
  isFavorited : Bool := false
  lastNavDirection : Option NavDirection := none
  hist : HistoryState := initState
  inFlightFetches : Nat := 0
  deriving DecidableEq, Repr

/-- Initial page state (all `useState` initialisers of ArtworkDisplayPage,
with the hook state at `initState`). -/
def initPage : PageState := {}

/-- The synchronous prefix of `loadNewArtwork`, up to the `await` on
`artworkAPI.getRandomArtwork`: sets `isLoading` true, clears `error`, and
issues the fetch (one more in flight).  Nothing in it consults `isLoading`
or any other guard before issuing the fetch. -/
def loadNewArtworkStart (s : PageState) : PageState :=
  { s with isLoading := true, error := none,
           inFlightFetches := s.inFlightFetches + 1 }

/-- The continuation of `loadNewArtwork` once its fetch settles with `res`
at wall-clock time `now`: on success the artwork is displayed, appended to
the history and browsing mode ends; on failure only `error` is set.
`finally` clears `isLoading` on both paths. -/
def loadNewArtworkResume (res : Except String Artwork) (now : Nat)
    (s : PageState) : PageState :=
  let s := { s with inFlightFetches := s.inFlightFetches - 1 }
  match res with
  | .ok a =>
    { s with currentArtwork := some a,
             hist := addToHistory a now s.hist,
             isBrowsingHistory := false,
             isFavorited := a.isFavorited.getD false,
             isLoading := false }
  | .error msg =>
    { s with error := some msg, isLoading := false }

/-- A full, uninterleaved run of `loadNewArtwork` whose fetch settles with
`res` at time `now`. -/
def loadNewArtwork (res : Except String Artwork) (now : Nat)
    (s : PageState) : PageState :=
  loadNewArtworkResume res now (loadNewArtworkStart s)

/-- Model of `handlePreviousClick`: records the direction, unconditionally enters
browsing mode, and calls `goToPrevious()`. -/
def handlePreviousClick (s : PageState) : PageState :=
  { s with lastNavDirection := some .prev,
           isBrowsingHistory := true,
           hist := (goToPrevious s.hist).1 }

/-- Model of `handleNextClick`: while browsing history it records the direction and
moves forward when not at the end — and never fetches; otherwise it starts
`loadNewArtwork` (its synchronous prefix, which issues the fetch). -/
def handleNextClick (s : PageState) : PageState :=
  if s.isBrowsingHistory then
    { s with lastNavDirection := some .next,
             hist := if isAtEnd s.hist then s.hist else (goToNext s.hist).1 }
  else
    loadNewArtworkStart s

/-- The effect at ArtworkDisplayPage lines 94–99: leave browsing mode after
a forward move that reached the end of the history. -/
def browsingResetEffect (s : PageState) : PageState :=
  if s.isBrowsingHistory ∧ isAtEnd s.hist ∧ s.lastNavDirection = some .next then
    { s with isBrowsingHistory := false, lastNavDirection := none }
  else s

/-! ## Lemmas about the stable sort -/

theorem length_insertByTime (a : Artwork) (l : List Artwork) :
    (insertByTime a l).length = l.length + 1 := by
  induction l with
  | nil => rfl
  | cons b bs ih =>
    by_cases h : timeOf b < timeOf a <;> simp [insertByTime, h, ih]

theorem length_sortByTime (l : List Artwork) :
    (sortByTime l).length = l.length := by
  induction l with
  | nil => rfl
  | cons a as ih => simp [sortByTime, length_insertByTime, ih]

theorem perm_insertByTime (a : Artwork) (l : List Artwork) :
    List.Perm (insertByTime a l) (a :: l) := by
  induction l with
  | nil => exact List.Perm.refl _
  | cons b bs ih =>
    by_cases h : timeOf b < timeOf a
    · simp only [insertByTime, if_pos h]
      exact (ih.cons b).trans (List.Perm.swap a b bs)
    · simp [insertByTime, h]

theorem perm_sortByTime (l : List Artwork) : List.Perm (sortByTime l) l := by
  induction l with
  | nil => exact List.Perm.refl _
  | cons a as ih => exact (perm_insertByTime a (sortByTime as)).trans (ih.cons a)

theorem mem_sortByTime {a : Artwork} {l : List Artwork} :
    a ∈ sortByTime l ↔ a ∈ l :=
  (perm_sortByTime l).mem_iff

/-! ## Lemmas about deduplication -/

/-- Membership in the dedup pass is exactly being the first record carrying
one's key (and the key not being pre-seen). -/
theorem mem_dedupByKey {a : Artwork} : ∀ {seen : List String} {l : List Artwork},
    a ∈ dedupByKey seen l ↔
      keyOf a ∉ seen ∧ l.find? (fun b => keyOf b == keyOf a) = some a := by
  intro seen l
  induction l generalizing seen with
  | nil => simp [dedupByKey]
  | cons c cs ih =>
    by_cases hc : keyOf c ∈ seen
    · rw [dedupByKey, if_pos hc]
      by_cases hk : keyOf c = keyOf a
      · rw [List.find?_cons_of_pos _ (by simpa using hk)]
        constructor
        · intro ha
          exact absurd (hk ▸ hc) (ih.mp ha).1
        · rintro ⟨hna, _⟩
          exact absurd (hk ▸ hc) hna
      · rw [List.find?_cons_of_neg _ (by simpa using hk)]
        exact ih
    · rw [dedupByKey, if_neg hc]
      by_cases hk : keyOf c = keyOf a
      · rw [List.find?_cons_of_pos _ (by simpa using hk)]
        simp only [List.mem_cons]
        constructor
        · rintro (rfl | ha)
          · exact ⟨hk ▸ hc, rfl⟩
          · exact absurd (by simp [← hk] : keyOf a ∈ keyOf c :: seen) (ih.mp ha).1
        · rintro ⟨hna, hca⟩
          exact Or.inl (Option.some_inj.mp hca).symm
      · rw [List.find?_cons_of_neg _ (by simpa using hk)]
        simp only [List.mem_cons]
        constructor
        · rintro (rfl | ha)
          · exact absurd rfl hk
          · have := ih.mp ha
            exact ⟨fun h => this.1 (List.mem_cons_of_mem _ h), this.2⟩
        · rintro ⟨hna, hfind⟩
          refine Or.inr (ih.mpr ⟨?_, hfind⟩)
          intro h
          rcases List.mem_cons.mp h with h | h
          · exact hk h.symm
          · exact hna h

/-- The dedup pass yields pairwise-distinct keys, none previously seen. -/
theorem dedupByKey_keys_nodup : ∀ (l : List Artwork) (seen : List String),
    ((dedupByKey seen l).map keyOf).Nodup ∧
      ∀ k ∈ (dedupByKey seen l).map keyOf, k ∉ seen := by
  intro l
  induction l with
  | nil => intro seen; simp [dedupByKey]
  | cons c cs ih =>
    intro seen
    by_cases hc : keyOf c ∈ seen
    · rw [dedupByKey, if_pos hc]; exact ih seen
    · rw [dedupByKey, if_neg hc]
      obtain ⟨hnd, hnot⟩ := ih (keyOf c :: seen)
      refine ⟨?_, ?_⟩
      · rw [List.map_cons]
        exact List.nodup_cons.mpr ⟨fun h => hnot _ h (List.mem_cons_self _ _), hnd⟩
      · intro k hk
        rw [List.map_cons, List.mem_cons] at hk
        rcases hk with rfl | h
        · exact hc
        · exact fun hs => hnot k h (List.mem_cons_of_mem _ hs)

/-! ## Lemmas about addToHistory -/

/-- The new history length, as an integer, in all cases (needs only the
lower pointer bound). -/
theorem length_addToHistory_int (a : Artwork) (now : Nat) (s : HistoryState)
    (h1 : -1 ≤ s.currentIndex) :
    (((addToHistory a now s).history.length : Int)) =
      if s.currentIndex < (s.history.length : Int) - 1 then
        (if s.currentIndex + 2 > 100 then s.currentIndex + 1
         else s.currentIndex + 2)
      else
        (if (s.history.length : Int) + 1 > 100 then (s.history.length : Int)
         else (s.history.length : Int) + 1) := by
  simp only [addToHistory, jsSliceTo, MAX_HISTORY_SIZE]
  split_ifs <;>
    simp only [List.length_tail, List.length_append, List.length_take,
      List.length_cons, List.length_nil] at * <;>
    omega

/-- The new pointer in all cases: `Math.min(currentIndex + 1, 99)`. -/
theorem currentIndex_addToHistory (a : Artwork) (now : Nat) (s : HistoryState) :
    (addToHistory a now s).currentIndex = min (s.currentIndex + 1) 99 := by
  simp only [addToHistory, MAX_HISTORY_SIZE]
  norm_num

/-- `addToHistory` preserves the pointer invariant (from any state that
satisfies it, of any length). -/
theorem ptrInv_addToHistory (a : Artwork) (now : Nat) (s : HistoryState)
    (h : PtrInv s) : PtrInv (addToHistory a now s) := by
  obtain ⟨h1, h2, h3⟩ := h
  have hlen := length_addToHistory_int a now s h1
  have hidx := currentIndex_addToHistory a now s
  split_ifs at hlen <;> exact ⟨by omega, by omega, by omega⟩

/-- `addToHistory` preserves the full invariant (pointer bounds plus the
capacity bound). -/
theorem histInv_addToHistory (a : Artwork) (now : Nat) (s : HistoryState)
    (h : HistInv s) : HistInv (addToHistory a now s) := by
  obtain ⟨⟨h1, h2, h3⟩, hcap⟩ := h
  have hlen := length_addToHistory_int a now s h1
  have hidx := currentIndex_addToHistory a now s
  simp only [HistInv, PtrInv, MAX_HISTORY_SIZE] at hcap ⊢
  split_ifs at hlen <;>
    exact ⟨⟨by omega, by omega, by omega⟩, by omega⟩

/-- From any state satisfying the full invariant, `addToHistory` leaves the
pointer at the last index of the new history. -/
theorem addToHistory_currentIndex_at_end (a : Artwork) (now : Nat)
    (s : HistoryState) (h : HistInv s) :
    (addToHistory a now s).currentIndex =
      ((addToHistory a now s).history.length : Int) - 1 := by
  obtain ⟨⟨h1, h2, h3⟩, hcap⟩ := h
  have hlen := length_addToHistory_int a now s h1
  have hidx := currentIndex_addToHistory a now s
  simp only [MAX_HISTORY_SIZE] at hcap
  rw [hidx, hlen]
  split_ifs <;> omega

/-- The record stored at the end of the history by `addToHistory` is always
the input stamped with `viewedAt = now`. -/
theorem addToHistory_getLast? (a : Artwork) (now : Nat) (s : HistoryState) :
    (addToHistory a now s).history.getLast? =
      some { a with viewedAt := some now } := by
  simp only [addToHistory, MAX_HISTORY_SIZE]
  generalize (if s.currentIndex < (s.history.length : Int) - 1 then
    jsSliceTo s.history (s.currentIndex + 1) else s.history) = nh
  split
  next h =>
    cases nh with
    | nil => simp at h
    | cons c cs => simp [List.getLast?_concat]
  next h => exact List.getLast?_concat _

/-- In the redo-truncation case (pointer strictly before the last index,
within capacity), the new history is the prefix up to the pointer followed by
the stamped record, and the pointer advances by one. -/
theorem addToHistory_truncation (a : Artwork) (now : Nat) (s : HistoryState)
    (h1 : -1 ≤ s.currentIndex) (hcap : s.history.length ≤ 100)
    (hbr : s.currentIndex < (s.history.length : Int) - 1) :
    addToHistory a now s =
      { history := s.history.take (s.currentIndex + 1).toNat
          ++ [{ a with viewedAt := some now }],
        currentIndex := s.currentIndex + 1 } := by
  have hn : ¬ ((s.currentIndex + 1 : Int) < 0) := by omega
  have hlen : (s.history.take (s.currentIndex + 1).toNat ++
      [{ a with viewedAt := some now }]).length ≤ 100 := by
    simp only [List.length_append, List.length_take, List.length_singleton]
    omega
  simp only [addToHistory, jsSliceTo, MAX_HISTORY_SIZE]
  rw [if_pos hbr, if_neg hn, if_neg (Nat.not_lt.mpr hlen)]
  simp only [HistoryState.mk.injEq]
  exact ⟨trivial, by omega⟩

/-- The first component of `goToPrevious` in closed form. -/
theorem goToPrevious_fst (s : HistoryState) :
    (goToPrevious s).1 =
      if s.currentIndex > 0 then { s with currentIndex := s.currentIndex - 1 }
      else s := by
  rw [goToPrevious]; split_ifs <;> rfl

/-- The first component of `goToNext` in closed form. -/
theorem goToNext_fst (s : HistoryState) :
    (goToNext s).1 =
      if s.currentIndex < (s.history.length : Int) - 1 then
        { s with currentIndex := s.currentIndex + 1 }
      else s := by
  rw [goToNext]; split_ifs <;> rfl

theorem goToPrevious_history (s : HistoryState) :
    (goToPrevious s).1.history = s.history := by
  rw [goToPrevious_fst]; split_ifs <;> rfl

theorem goToNext_history (s : HistoryState) :
    (goToNext s).1.history = s.history := by
  rw [goToNext_fst]; split_ifs <;> rfl

theorem ptrInv_goToPrevious (s : HistoryState) (h : PtrInv s) :
    PtrInv (goToPrevious s).1 := by
  obtain ⟨h1, h2, h3⟩ := h
  rw [goToPrevious_fst]
  split_ifs <;> simp only [PtrInv] <;> omega

theorem ptrInv_goToNext (s : HistoryState) (h : PtrInv s) :
    PtrInv (goToNext s).1 := by
  obtain ⟨h1, h2, h3⟩ := h
  rw [goToNext_fst]
  split_ifs <;> simp only [PtrInv] <;> omega

theorem ptrInv_loadFromStorage (parsed : List Artwork) (s : HistoryState) :
    PtrInv (loadFromStorage parsed s) := by
  simp only [loadFromStorage, PtrInv]
  omega

theorem ptrInv_syncFromBackend (server : List Artwork) (s : HistoryState)
    (h : PtrInv s) : PtrInv (syncFromBackend server s) := by
  rw [syncFromBackend]
  split_ifs with hc
  · have hne : (mergeHistories s.history server).length ≠ 0 := by
      obtain ⟨hh, hs⟩ := hc
      rw [mergeHistories, length_sortByTime, hh]
      cases server with
      | nil => exact absurd rfl hs
      | cons c cs => simp [dedupByKey]
    simp only [PtrInv]
    omega
  · exact h

theorem ptrInv_applyOp (op : Op) (s : HistoryState) (h : PtrInv s) :
    PtrInv (applyOp op s) := by
  cases op with
  | load parsed => exact ptrInv_loadFromStorage parsed s
  | sync server => exact ptrInv_syncFromBackend server s h
  | add a now => exact ptrInv_addToHistory a now s h
  | prev => exact ptrInv_goToPrevious s h
  | next => exact ptrInv_goToNext s h

theorem ptrInv_runOps (ops : List Op) (s : HistoryState) (h : PtrInv s) :
    PtrInv (runOps ops s) := by
  induction ops generalizing s with
  | nil => exact h
  | cons op ops ih => exact ih (applyOp op s) (ptrInv_applyOp op s h)

/-- Identifies the operations driven by user navigation (append and pointer
moves), as opposed to the startup load/sync operations. -/
def Op.isNav : Op → Bool
  | .load _ => false
  | .sync _ => false
  | _ => true

/-- The navigation operations preserve the full invariant, capacity bound
included. -/
theorem histInv_applyOp_nav (op : Op) (s : HistoryState)
    (hop : op.isNav = true) (h : HistInv s) : HistInv (applyOp op s) := by
  cases op with
  | load parsed => simp [Op.isNav] at hop
  | sync server => simp [Op.isNav] at hop
  | add a now => exact histInv_addToHistory a now s h
  | prev =>
    refine ⟨ptrInv_goToPrevious s h.1, ?_⟩
    show (goToPrevious s).1.history.length ≤ MAX_HISTORY_SIZE
    rw [goToPrevious_history]; exact h.2
  | next =>
    refine ⟨ptrInv_goToNext s h.1, ?_⟩
    show (goToNext s).1.history.length ≤ MAX_HISTORY_SIZE
    rw [goToNext_history]; exact h.2

/-! ## Concrete records for examples, witnesses and counterexamples -/

/-- A concrete artwork with key `"M-d"` and a pre-existing timestamp. -/
def dupArt : Artwork := { id := "d", museumSource := "M", viewedAt := some 5 }

/-- The local copy of key `K-1` from the spec's merge example (`{k1,t=5}`). -/
def localK1 : Artwork := { id := "1", museumSource := "K", viewedAt := some 5 }

/-- The remote copy of key `K-1` from the spec's merge example, carrying the
extra field (`{k1,t=5,extra:"x"}`, the extra field modelled by `title`). -/
def remoteK1 : Artwork :=
  { id := "1", museumSource := "K", title := "x", viewedAt := some 5 }

/-- The remote record of key `K-3` from the spec's merge example. -/
def remoteK3 : Artwork := { id := "3", museumSource := "K", viewedAt := some 3 }

/-- An artwork with index-derived identity and timestamp. -/
def mkArt (i : Nat) : Artwork :=
  { id := toString i, museumSource := "M", viewedAt := some i }

/-- A list of 101 artworks with pairwise-distinct keys. -/
def manyArts : List Artwork := (List.range 101).map mkArt

/-- Records of the spec's redo-truncation example history `[a,b,c,d]`. -/
def recA : Artwork := { id := "a", museumSource := "M" }

/-- Second record of the redo-truncation example. -/
def recB : Artwork := { id := "b", museumSource := "M" }

/-- Third record of the redo-truncation example. -/
def recC : Artwork := { id := "c", museumSource := "M" }

/-- Fourth record of the redo-truncation example. -/
def recD : Artwork := { id := "d2", museumSource := "M" }

/-- The record appended in the redo-truncation example. -/
def recE : Artwork := { id := "e", museumSource := "M" }

/-! ## Claim C1 -/

set_option maxRecDepth 4000 in
/-- C1 (counterexample): the claimed invariant `length ≤ 100` after every
operation fails on the code.  Loading a stored history of 101 records
(`localStorage` is written without clamping, e.g. after a sync whose merge
result exceeds the capacity) installs all 101 records: `loadHistory` calls
`setHistory(parsed)` with no capacity check. -/
theorem C1_length_bound_fails :
    ¬ ((runOps [Op.load manyArts] initState).history.length ≤ 100) := by
  decide

/-- C1 (amended): the pointer invariant `-1 ≤ currentIndex ≤ length - 1`,
with `currentIndex = -1` iff the history is empty, holds after every
operation of every sequence; the capacity bound `length ≤ 100` is preserved
by `addToHistory`, `goToPrevious` and `goToNext`, but is not enforced by
the load and sync/merge operations, which install unclamped histories. -/
theorem history_invariant_amended :
    (∀ (ops : List Op) (s : HistoryState), PtrInv s → PtrInv (runOps ops s)) ∧
    (∀ (op : Op) (s : HistoryState), op.isNav = true → HistInv s →
      HistInv (applyOp op s)) :=
  ⟨ptrInv_runOps, histInv_applyOp_nav⟩

/-- C1 witness: the amended invariant applied to a concrete run and a
concrete navigation step. -/
theorem history_invariant_amended_witness :
    PtrInv (runOps [Op.add dupArt 1, Op.prev] initState) ∧
    HistInv (applyOp (Op.add dupArt 2) initState) :=
  ⟨history_invariant_amended.1 [Op.add dupArt 1, Op.prev] initState (by decide),
   history_invariant_amended.2 (Op.add dupArt 2) initState rfl (by decide)⟩

/-! ## Claim C2 -/

/-- C2 (counterexample): on the spec's own example the remote copy of `k1`
(the one with the extra field) is NOT kept — `mergeHistories` keeps the
first occurrence in `[...local, ...server]`, which is the local copy, even
though the remote timestamp is not older. -/
theorem C2_remote_copy_not_kept :
    remoteK1 ∉ mergeHistories [localK1] [remoteK1, remoteK3] ∧
    mergeHistories [localK1] [remoteK1, remoteK3] = [remoteK3, localK1] := by
  decide

/-- C2 (amended): on a key collision `mergeHistories` keeps the first
occurrence of the key in `[...local, ...server]` — so the local copy always
wins, regardless of the timestamps; membership in the merge output is
exactly being the first record carrying one's key.  On the spec's example
the local copy of `k1` is kept and ascending time order is produced. -/
theorem mergeHistories_first_occurrence_wins :
    (∀ (loc rem : List Artwork) (a : Artwork),
      a ∈ mergeHistories loc rem ↔
        (loc ++ rem).find? (fun b => keyOf b == keyOf a) = some a) ∧
    mergeHistories [localK1] [remoteK1, remoteK3] = [remoteK3, localK1] := by
  constructor
  · intro loc rem a
    rw [mergeHistories, mem_sortByTime, mem_dedupByKey]
    simp
  · decide

/-! ## Claim C3 -/

set_option maxRecDepth 4000 in
/-- C3 (counterexample): a deduplicated union of 101 records (more than
`N = 100`) is returned whole — `mergeHistories` never drops entries, so the
output length is 101, not 100. -/
theorem C3_merge_does_not_truncate :
    (dedupByKey [] ([] ++ manyArts)).length > 100 ∧
    ¬ ((mergeHistories [] manyArts).length = 100) := by
  decide

/-- C3 (amended): `mergeHistories` performs no capacity truncation at all:
its output length always equals the length of the deduplicated union of its
inputs, and therefore can exceed the capacity `N = 100` (101 distinct input
keys yield 101 output records). -/
theorem mergeHistories_no_truncation :
    (∀ loc rem : List Artwork,
      (mergeHistories loc rem).length = (dedupByKey [] (loc ++ rem)).length) ∧
    (mergeHistories [] manyArts).length = 101 := by
  constructor
  · intro loc rem
    rw [mergeHistories, length_sortByTime]
  · set_option maxRecDepth 4000 in decide

/-! ## Claim C4 -/

/-- C4 (confirmed): from any in-invariant state with the pointer strictly
before the last index, `addToHistory` discards everything after the
pointer, appends the (stamped) new record, and leaves the pointer at the
new last index. -/
theorem addToHistory_redo_truncation (a : Artwork) (now : Nat)
    (s : HistoryState) (h1 : -1 ≤ s.currentIndex)
    (hcap : s.history.length ≤ 100)
    (hbr : s.currentIndex < (s.history.length : Int) - 1) :
    (addToHistory a now s).history =
      s.history.take (s.currentIndex + 1).toNat
        ++ [{ a with viewedAt := some now }] ∧
    (addToHistory a now s).currentIndex = s.currentIndex + 1 ∧
    (addToHistory a now s).currentIndex =
      ((addToHistory a now s).history.length : Int) - 1 := by
  rw [addToHistory_truncation a now s h1 hcap hbr]
  refine ⟨rfl, rfl, ?_⟩
  simp only [List.length_append, List.length_take, List.length_singleton]
  omega

/-- The redo-truncation example state: history `[a,b,c,d]`, pointer `1`. -/
def exMidState : HistoryState :=
  { history := [recA, recB, recC, recD], currentIndex := 1 }

/-- C4 witness: the spec's example — history `[a,b,c,d]` with pointer `1`;
appending `e` yields `[a,b,e]` (with `e` stamped) and pointer `2`. -/
theorem addToHistory_redo_truncation_witness :
    (addToHistory recE 7 exMidState).history
      = [recA, recB, { recE with viewedAt := some 7 }] ∧
    (addToHistory recE 7 exMidState).currentIndex = 2 := by
  have h := addToHistory_redo_truncation recE 7 exMidState
    (by decide) (by decide) (by decide)
  exact ⟨by rw [h.1]; decide, by rw [h.2.1]; decide⟩

/-! ## Claim C5 -/

/-- C5 (counterexample): appending a record whose key is already in the
history does produce a duplicate — `addToHistory` performs no
deduplication, so after appending the same artwork twice the key `M-d`
occurs twice. -/
theorem C5_append_duplicates_key :
    ¬ (((runOps [Op.add dupArt 1, Op.add dupArt 2] initState).history.map
        keyOf).Nodup) := by
  decide

/-- C5 (amended): key uniqueness holds for the output of the merge — the
deduplication pass makes its keys pairwise distinct and the sort only
permutes — but it is not an invariant maintained by every operation:
`addToHistory` never deduplicates, so appending an already-present key
duplicates it. -/
theorem mergeHistories_unique_keys :
    ∀ loc rem : List Artwork, ((mergeHistories loc rem).map keyOf).Nodup := by
  intro loc rem
  have hperm := (perm_sortByTime (dedupByKey [] (loc ++ rem))).map keyOf
  rw [mergeHistories]
  exact hperm.nodup_iff.mpr (dedupByKey_keys_nodup (loc ++ rem) []).1

/-! ## Claim C6 -/

/-- C6 (counterexample): on the initial (empty-history) state, where
`canGoBack()` is false, `handlePreviousClick` is not a complete no-op — it
unconditionally sets `isBrowsingHistory` to `true` (Replaying), and the
reset effect does not undo it because the last direction is `prev`; the
claim that the state stays Live fails. -/
theorem C6_previous_click_enters_browsing :
    canGoBack initPage.hist = false ∧
    (browsingResetEffect (handlePreviousClick initPage)).isBrowsingHistory
      = true := by
  decide

/-- C6 (amended): whenever `canGoBack()` is false, `handlePreviousClick`
leaves the history sequence, the pointer and `current()` unchanged — but it
is not a complete no-op on the controller state: it records the `prev`
direction and unconditionally enters browsing mode (Replaying) instead of
staying Live. -/
theorem handlePreviousClick_no_back_amended (s : PageState)
    (h : canGoBack s.hist = false) :
    (handlePreviousClick s).hist = s.hist ∧
    getCurrentArtwork (handlePreviousClick s).hist
      = getCurrentArtwork s.hist ∧
    (handlePreviousClick s).isBrowsingHistory = true ∧
    (handlePreviousClick s).lastNavDirection = some NavDirection.prev := by
  have hng : ¬ (s.hist.currentIndex > 0) := by
    simpa [canGoBack, decide_eq_false_iff_not] using h
  have hg : (goToPrevious s.hist).1 = s.hist := by
    rw [goToPrevious_fst, if_neg hng]
  exact ⟨hg, congrArg getCurrentArtwork hg, rfl, rfl⟩

/-- C6 witness: the amended statement applied to the initial page state. -/
theorem handlePreviousClick_no_back_amended_witness :
    canGoBack initPage.hist = false ∧
    (handlePreviousClick initPage).hist = initPage.hist ∧
    (handlePreviousClick initPage).isBrowsingHistory = true :=
  ⟨by decide, (handlePreviousClick_no_back_amended initPage (by decide)).1,
    (handlePreviousClick_no_back_amended initPage (by decide)).2.2.1⟩

/-! ## Claim C7 -/

/-- C7 (counterexample): with a fetch already outstanding after a first
`handleNextClick` (one in-flight fetch, `isLoading` true), a second
`handleNextClick` issues a second fetch instead of being dropped: two
fetches are then in flight, refuting the claimed in-flight guard. -/
theorem C7_second_fetch_issued :
    (handleNextClick initPage).inFlightFetches = 1 ∧
    (handleNextClick initPage).isLoading = true ∧
    (handleNextClick (handleNextClick initPage)).inFlightFetches = 2 := by
  decide

/-- C7 (amended): there is no in-flight guard: in any non-browsing state —
whatever number of fetches is already outstanding and whatever `isLoading`
is — `handleNextClick` issues one more `fetchRandom` call; only while
browsing history does `handleNextClick` issue no fetch.  (The refresh
button is disabled while loading, but the keyboard handler invokes
`handleNextClick` with no such check.) -/
theorem handleNextClick_no_inflight_guard (s : PageState) :
    (s.isBrowsingHistory = false →
      (handleNextClick s).inFlightFetches = s.inFlightFetches + 1) ∧
    (s.isBrowsingHistory = true →
      (handleNextClick s).inFlightFetches = s.inFlightFetches) := by
  constructor
  · intro h
    rw [handleNextClick, if_neg (by simp [h])]
    rfl
  · intro h
    rw [handleNextClick, if_pos (by simp [h])]

/-- C7 witness: even from a state with a fetch already outstanding, the
next click issues another fetch. -/
theorem handleNextClick_no_inflight_guard_witness :
    (handleNextClick (loadNewArtworkStart initPage)).inFlightFetches
      = (loadNewArtworkStart initPage).inFlightFetches + 1 :=
  (handleNextClick_no_inflight_guard (loadNewArtworkStart initPage)).1 rfl

/-! ## Claim C8 -/

/-- C8 (confirmed): when the fetch path of `requestNext` fails, the history
sequence and pointer (`hist`) and the navigation state
(`isBrowsingHistory`) are exactly as before, the displayed artwork is
untouched, and the error is surfaced; on success the fetched record is
appended (stamped) at the end and the pointer moves to the new last
index. -/
theorem loadNewArtwork_failure_frame_success_append (s : PageState)
    (e : String) (a : Artwork) (now : Nat) (hinv : HistInv s.hist) :
    ((loadNewArtwork (Except.error e) now s).hist = s.hist ∧
     (loadNewArtwork (Except.error e) now s).isBrowsingHistory
        = s.isBrowsingHistory ∧
     (loadNewArtwork (Except.error e) now s).currentArtwork
        = s.currentArtwork ∧
     (loadNewArtwork (Except.error e) now s).error = some e) ∧
    ((loadNewArtwork (Except.ok a) now s).hist = addToHistory a now s.hist ∧
     (loadNewArtwork (Except.ok a) now s).hist.history.getLast?
        = some { a with viewedAt := some now } ∧
     (loadNewArtwork (Except.ok a) now s).hist.currentIndex
        = ((loadNewArtwork (Except.ok a) now s).hist.history.length : Int)
            - 1) := by
  refine ⟨⟨rfl, rfl, rfl, rfl⟩, rfl, ?_, ?_⟩
  · exact addToHistory_getLast? a now s.hist
  · exact addToHistory_currentIndex_at_end a now s.hist hinv

/-- C8 witness: a failing fetch on the initial page leaves the history
state untouched; a successful one appends and points at the new record. -/
theorem loadNewArtwork_failure_frame_success_append_witness :
    (loadNewArtwork (Except.error "network error") 3 initPage).hist
      = initPage.hist ∧
    (loadNewArtwork (Except.ok dupArt) 3 initPage).hist.currentIndex = 0 := by
  have h := loadNewArtwork_failure_frame_success_append initPage
    "network error" dupArt 3 (by decide)
  exact ⟨h.1.1, by rw [h.2.1]; decide⟩

/-! ## Claim C9 -/

/-- C9 (counterexample): a record arriving with `viewedAt = 5` is stored
with `viewedAt = 9` when appended at time `9` — `addToHistory` overwrites
the existing timestamp rather than preserving it. -/
theorem C9_viewedAt_overwritten :
    dupArt.viewedAt = some 5 ∧
    ¬ ((addToHistory dupArt 9 initState).history.map Artwork.viewedAt
        = [dupArt.viewedAt]) := by
  decide

/-- C9 (amended): `addToHistory` always assigns `viewedAt` to the current
time, overwriting any timestamp the input record already carries: the
stored record is the input with `viewedAt = now`, unconditionally. -/
theorem addToHistory_always_stamps (a : Artwork) (now : Nat)
    (s : HistoryState) :
    (addToHistory a now s).history.getLast?
      = some { a with viewedAt := some now } :=
  addToHistory_getLast? a now s

/-! ## Claim C10 -/

/-- C10 (confirmed): `getCurrentArtwork` is total and defensive: for every
pointer outside `[0, length-1]` — negative or too large, not only the
empty marker `-1` — it returns `null`, and for a pointer inside the range
it returns the record at that index. -/
theorem getCurrentArtwork_total_defensive (s : HistoryState) :
    ((s.currentIndex < 0 ∨ (s.history.length : Int) ≤ s.currentIndex) →
        getCurrentArtwork s = none) ∧
    (∀ _ : 0 ≤ s.currentIndex,
      s.currentIndex < (s.history.length : Int) →
      ∃ hn : s.currentIndex.toNat < s.history.length,
        getCurrentArtwork s
          = some (s.history.get ⟨s.currentIndex.toNat, hn⟩)) := by
  constructor
  · intro h
    rw [getCurrentArtwork, if_neg (by omega)]
  · intro h0 hlt
    have hn : s.currentIndex.toNat < s.history.length := by omega
    refine ⟨hn, ?_⟩
    rw [getCurrentArtwork, if_pos ⟨h0, hlt⟩, jsIndex, if_pos h0]
    exact List.get?_eq_get hn

/-- C10 witness: an out-of-range positive pointer on an empty history gives
`null`; pointer `0` on a one-record history gives that record. -/
theorem getCurrentArtwork_total_defensive_witness :
    getCurrentArtwork { history := [], currentIndex := 5 } = none ∧
    getCurrentArtwork { history := [dupArt], currentIndex := 0 }
      = some dupArt := by
  constructor
  · exact (getCurrentArtwork_total_defensive _).1 (by decide)
  · obtain ⟨hn, h⟩ :=
      (getCurrentArtwork_total_defensive
        { history := [dupArt], currentIndex := 0 }).2 (by decide) (by decide)
    rw [h]
    rfl
